import Mathlib

/-!
Verification development for the brain-tumor classification app (`app.py`).

The only algorithmic component is `generate_saliency_map` (app.py lines 68-125),
together with the image preparation in `display_tab_content` (lines 162-196).
We give a shallow embedding of that pipeline:

* pixel values are exact rationals (`ℚ`) standing for the numpy floats;
* 2D arrays are functions `ℕ → ℕ → ℚ` bundled with their shape (`Arr2`),
  3D RGB arrays likewise (`Arr3`, and `Arr3N` for `uint8` output);
* the external library calls that the routine merely invokes
  (`cv2.resize`, `cv2.GaussianBlur`, `cv2.applyColorMap`,
  `keras` `load_img`) are parameters of the embedding, bundled in `CVLib`;
  their shape contracts (an output of `cv2.resize(ّ, (w, h))` has `h` rows and
  `w` columns, blur preserves shape, the colormap maps one intensity to one
  BGR triple) are encoded by the wrappers that bundle the shapes;
* the TensorFlow gradient computation (lines 69-78) is external as well: the
  embedding takes the already-reduced 2D gradient array (`abs`, channel-max,
  squeeze) as an input, `SalArgs.rawGradients`;
* the two file writes (lines 116-123) act on an explicit store
  `String → Option FileContent`; the `open(...).write` call signals failure by
  a Python exception (modelled with `Except`), while `cv2.imwrite` signals
  failure through its ignored boolean result (modelled by the `imwriteOk`
  flag that leaves the store unchanged).
-/

namespace SaliencyApp

/-- A 2D single-channel pixel field (row, column). -/
def Map2 : Type := ℕ → ℕ → ℚ

/-- A 2D array with its shape, mirroring a numpy `float` array of rank 2. -/
structure Arr2 where
  rows : ℕ
  cols : ℕ
  val : Map2

/-- A 3-channel array with its shape (rank-3 numpy array, last axis = color). -/
structure Arr3 where
  rows : ℕ
  cols : ℕ
  val : ℕ → ℕ → Fin 3 → ℚ

/-- A 3-channel `uint8` array (the returned saliency overlay). -/
structure Arr3N where
  rows : ℕ
  cols : ℕ
  val : ℕ → ℕ → Fin 3 → ℕ

/-- The uploaded file: its name, its original pixel dimensions, and its raw
byte content (`uploaded_file.getbuffer()`). -/
structure UploadedFile where
  name : String
  rows : ℕ
  cols : ℕ
  bytes : List ℕ

/-- The external library calls used by `generate_saliency_map`; the embedding
is parametric in the numeric content of these calls and encodes only their
shape contracts (in the wrappers below).  `resizeMapVal a w h` is the pixel
field of `cv2.resize(a, (w, h))` for a single-channel array, `resizeImgVal`
the same for a 3-channel array, `blurVal` is `cv2.GaussianBlur(·, (11, 11), 0)`,
`colormapJet v ch` is the BGR triple `cv2.applyColorMap` assigns to the
`uint8` intensity `v`, and `loadImgVal f w h` is the pixel field of the
keras `load_img(f, target_size=img_size)` decode-and-resize. -/
structure CVLib where
  resizeMapVal : Arr2 → ℕ → ℕ → Map2
  resizeImgVal : Arr3 → ℕ → ℕ → (ℕ → ℕ → Fin 3 → ℚ)
  blurVal : Arr2 → Map2
  colormapJet : ℕ → Fin 3 → ℚ
  loadImgVal : UploadedFile → ℕ → ℕ → (ℕ → ℕ → Fin 3 → ℚ)

/-- `cv2.resize(g, (w, h))` for a rank-2 array: the result has `h` rows and
`w` columns (OpenCV's `dsize` is `(width, height)`). -/
def cvResizeMap (cv : CVLib) (a : Arr2) (w h : ℕ) : Arr2 :=
  ⟨h, w, cv.resizeMapVal a w h⟩

/-- `cv2.resize(img, (w, h))` for a 3-channel array. -/
def cvResizeImg (cv : CVLib) (a : Arr3) (w h : ℕ) : Arr3 :=
  ⟨h, w, cv.resizeImgVal a w h⟩

/-- `cv2.GaussianBlur(g, (11, 11), 0)`: shape preserving. -/
def cvBlur (cv : CVLib) (a : Arr2) : Arr2 :=
  ⟨a.rows, a.cols, cv.blurVal a⟩

/-- `image.load_img(uploaded_file, target_size=img_size)` followed by
`image.img_to_array` (app.py lines 177-178 and 112): the decoded upload
resized to the classifier's input size, regardless of the upload's own
dimensions. -/
def load_img (cv : CVLib) (f : UploadedFile) (w h : ℕ) : Arr3 :=
  ⟨h, w, cv.loadImgVal f w h⟩

/-- `radius = min(center[0], center[1]) - 10` (app.py line 85), where
`center = (gradients.shape[0] // 2, gradients.shape[1] // 2)` (line 84).
Python `int` subtraction, so the value may be negative for tiny shapes. -/
def radius (rows cols : ℕ) : ℤ :=
  (min (rows / 2) (cols / 2) : ℕ) - 10

/-- The circular mask of app.py lines 86-87.  With
`y, x = np.ogrid[:shape[0], :shape[1]]` the variable `x` ranges over column
indices and `y` over row indices, so
`mask = (x - center[0])**2 + (y - center[1])**2 <= radius**2` compares the
column against `center[0] = rows // 2` and the row against
`center[1] = cols // 2`. -/
def mask (rows cols r c : ℕ) : Bool :=
  decide (((c : ℤ) - ((rows / 2 : ℕ) : ℤ)) ^ 2 + ((r : ℤ) - ((cols / 2 : ℕ) : ℤ)) ^ 2
    ≤ (radius rows cols) ^ 2)

/-- Modelled from the spec: "a circular mask centered on the map" — the mask
one gets when each axis is compared against its own center, i.e. the column
against `cols // 2` and the row against `rows // 2`.  Used to compare the
code's `mask` against the spec's words (claim C10). -/
def centeredMask (rows cols r c : ℕ) : Bool :=
  decide (((c : ℤ) - ((cols / 2 : ℕ) : ℤ)) ^ 2 + ((r : ℤ) - ((rows / 2 : ℕ) : ℤ)) ^ 2
    ≤ (radius rows cols) ^ 2)

/-- The pixels selected by the boolean mask, in numpy's row-major order
(`gradients[mask]`). -/
def maskedPixels (rows cols : ℕ) : List (ℕ × ℕ) :=
  (List.range rows).flatMap fun r =>
    ((List.range cols).filter fun c => mask rows cols r c).map fun c => (r, c)

/-- The masked values `gradients[mask]` of a pixel field. -/
def maskedValues (rows cols : ℕ) (g : Map2) : List ℚ :=
  (maskedPixels rows cols).map fun p => g p.1 p.2

/-- `np.min` of a list of values (`0` on the empty list, which numpy would
reject; the masked region is nonempty for the app's input sizes). -/
def listMin : List ℚ → ℚ
  | [] => 0
  | x :: xs => xs.foldl min x

/-- `np.max` of a list of values (`0` on the empty list). -/
def listMax : List ℚ → ℚ
  | [] => 0
  | x :: xs => xs.foldl max x

/-- `gradients = gradients * mask` (app.py line 90): zero outside the mask. -/
def applyMask (rows cols : ℕ) (g : Map2) : Map2 :=
  fun r c => if mask rows cols r c then g r c else 0

/-- App.py lines 92-96: `brain_gradients = gradients[mask]`; if
`max > min`, min-max normalize those values; write them back into the masked
positions (a no-op write when the guard fails). -/
def normalizeBrain (rows cols : ℕ) (g : Map2) : Map2 :=
  fun r c =>
    if mask rows cols r c then
      if listMin (maskedValues rows cols g) < listMax (maskedValues rows cols g) then
        (g r c - listMin (maskedValues rows cols g)) /
          (listMax (maskedValues rows cols g) - listMin (maskedValues rows cols g))
      else g r c
    else g r c

/-- The ascending sort underlying `np.percentile`. -/
def sortedVals (l : List ℚ) : List ℚ :=
  List.insertionSort (fun a b => a ≤ b) l

/-- The lower interpolation index of `np.percentile(·, 80)`:
`floor(0.8 * (n - 1))` for `n` values. -/
def pctK (n : ℕ) : ℕ := 4 * (n - 1) / 5

/-- The fractional part `0.8 * (n - 1) - pctK n` of the interpolation
index. -/
def pctG (n : ℕ) : ℚ := ((4 * (n - 1) : ℕ) : ℚ) / 5 - (pctK n : ℚ)

/-- `np.percentile(l, 80)` with the default linear interpolation: with the
values sorted ascending, interpolate between the entries at positions
`floor(0.8 (n-1))` and the next one. -/
def percentile80 (l : List ℚ) : ℚ :=
  (sortedVals l).getD (pctK l.length) 0 +
    pctG l.length *
      ((sortedVals l).getD (pctK l.length + 1) ((sortedVals l).getD (pctK l.length) 0) -
        (sortedVals l).getD (pctK l.length) 0)

/-- App.py line 100: `gradients[gradients < threshold] = 0`, applied to the
whole array. -/
def applyThreshold (t : ℚ) (g : Map2) : Map2 :=
  fun r c => if g r c < t then 0 else g r c

/-- Truncation toward zero of a rational, as the C-style float-to-int cast
does (`ℚ` is stored in lowest terms, and `Int` division truncates toward
zero). -/
def ratTrunc (x : ℚ) : ℤ := x.num / (x.den : ℤ)

/-- `np.uint8(x)` for a float `x`: truncate toward zero and reduce
modulo 256. -/
def uint8cast (x : ℚ) : ℕ := ((ratTrunc x) % 256).toNat

/-- The channel permutation of `cv2.cvtColor(·, cv2.COLOR_BGR2RGB)` (and of
`COLOR_RGB2BGR`): reverse the channel order. -/
def bgrSwap (ch : Fin 3) : Fin 3 := ⟨2 - ch.val, by omega⟩

/-- The inputs of `generate_saliency_map` (app.py line 68): the reduced 2D
gradient array `gradients` as it stands after line 78 (the TensorFlow part
is external), the resized original image `img` as a pixel array
(`image.img_to_array(img)`, line 112), the classifier input size
`img_size = (width, height)`, and the uploaded file. -/
structure SalArgs where
  rawGradients : Arr2
  img : Arr3
  imgSizeW : ℕ
  imgSizeH : ℕ
  file : UploadedFile

/-- App.py line 81: `gradients = cv2.resize(gradients, img_size)`. -/
def resizedGradients (cv : CVLib) (a : SalArgs) : Arr2 :=
  cvResizeMap cv a.rawGradients a.imgSizeW a.imgSizeH

/-- App.py line 90: the resized gradients with the circular mask applied. -/
def maskedGradients (cv : CVLib) (a : SalArgs) : Arr2 :=
  ⟨(resizedGradients cv a).rows, (resizedGradients cv a).cols,
    applyMask (resizedGradients cv a).rows (resizedGradients cv a).cols
      (resizedGradients cv a).val⟩

/-- App.py lines 92-96: the masked gradients after the guarded min-max
normalization of the masked region. -/
def normalizedGradients (cv : CVLib) (a : SalArgs) : Arr2 :=
  ⟨(maskedGradients cv a).rows, (maskedGradients cv a).cols,
    normalizeBrain (maskedGradients cv a).rows (maskedGradients cv a).cols
      (maskedGradients cv a).val⟩

/-- App.py lines 98-100: zero every value below the 80th percentile of the
masked values. -/
def thresholdedGradients (cv : CVLib) (a : SalArgs) : Arr2 :=
  ⟨(normalizedGradients cv a).rows, (normalizedGradients cv a).cols,
    applyThreshold
      (percentile80 (maskedValues (normalizedGradients cv a).rows
        (normalizedGradients cv a).cols (normalizedGradients cv a).val))
      (normalizedGradients cv a).val⟩

/-- App.py line 103: `gradients = cv2.GaussianBlur(gradients, (11, 11), 0)`. -/
def blurredGradients (cv : CVLib) (a : SalArgs) : Arr2 :=
  cvBlur cv (thresholdedGradients cv a)

/-- App.py lines 106-107: colorize `np.uint8(255 * gradients)` with the JET
colormap and convert BGR to RGB. -/
def heatmapRaw (cv : CVLib) (a : SalArgs) : Arr3 :=
  ⟨(blurredGradients cv a).rows, (blurredGradients cv a).cols,
    fun r c ch =>
      cv.colormapJet (uint8cast (255 * (blurredGradients cv a).val r c)) (bgrSwap ch)⟩

/-- App.py line 110: `heatmap = cv2.resize(heatmap, img_size)`. -/
def heatmap (cv : CVLib) (a : SalArgs) : Arr3 :=
  cvResizeImg cv (heatmapRaw cv a) a.imgSizeW a.imgSizeH

/-- App.py line 113: `superimposed_img = heatmap * 0.7 + original_img * 0.3`. -/
def superimposedImg (cv : CVLib) (a : SalArgs) : Arr3 :=
  ⟨(heatmap cv a).rows, (heatmap cv a).cols,
    fun r c ch => (heatmap cv a).val r c ch * (7 / 10) + a.img.val r c ch * (3 / 10)⟩

/-- App.py line 114: `superimposed_img.astype(np.uint8)` — the overlay that
is returned to the caller. -/
def superimposedUint8 (cv : CVLib) (a : SalArgs) : Arr3N :=
  ⟨(superimposedImg cv a).rows, (superimposedImg cv a).cols,
    fun r c ch => uint8cast ((superimposedImg cv a).val r c ch)⟩

/-- The identity-flavored instantiation of the external calls, used for the
concrete runs below: `resize` keeps the underlying pixel field (which agrees
with bilinear resizing on the constant fields used here), blur keeps the
field, the colormap is the constant black triple. -/
def cvId : CVLib :=
  ⟨fun a _ _ => a.val, fun a _ _ => a.val, fun a => a.val,
    fun _ _ => 0, fun _ _ _ => fun _ _ _ => 0⟩

/-- A 512 × 512 upload named `scan.png`. -/
def fileScan : UploadedFile := ⟨"scan.png", 512, 512, [1, 2, 3]⟩

/-- Arguments whose reduced gradient array is constant `v` on a 299 × 299
grid (a flat gradient; reachable since the model weights are arbitrary, and
preserved exactly by bilinear resizing of a constant field). -/
def aConst (v : ℚ) : SalArgs :=
  ⟨⟨299, 299, fun _ _ => v⟩, ⟨299, 299, fun _ _ _ => 0⟩, 299, 299, fileScan⟩

/-- Concrete input for the C3 counterexample: the reduced gradient array is
constant 5 (a flat but non-zero gradient), classifier size 299 × 299. -/
def aC3 : SalArgs := aConst 5

/-- Arguments for the C6 witness: a 2 × 2 grid (whose circular mask is the
whole grid, since the radius is negative and its square therefore
dominates), constant gradient 1. -/
def aW6 : SalArgs :=
  ⟨⟨2, 2, fun _ _ => 1⟩, ⟨2, 2, fun _ _ _ => 0⟩, 2, 2, fileScan⟩

lemma mem_maskedPixels {rows cols : ℕ} {p : ℕ × ℕ} :
    p ∈ maskedPixels rows cols ↔
      p.1 < rows ∧ p.2 < cols ∧ mask rows cols p.1 p.2 = true := by
  cases p with
  | mk r c =>
    simp only [maskedPixels, List.mem_flatMap, List.mem_map, List.mem_filter,
      List.mem_range, Prod.mk.injEq]
    constructor
    · rintro ⟨r0, hr0, c0, ⟨hc0, hm0⟩, hr, hc⟩
      subst hr; subst hc
      exact ⟨hr0, hc0, hm0⟩
    · rintro ⟨hr, hc, hm⟩
      exact ⟨r, hr, c, ⟨hc, hm⟩, rfl, rfl⟩

lemma maskedGradients_val (cv : CVLib) (a : SalArgs) :
    (maskedGradients cv a).val
      = applyMask a.imgSizeH a.imgSizeW (resizedGradients cv a).val := rfl

lemma normalizedGradients_val (cv : CVLib) (a : SalArgs) :
    (normalizedGradients cv a).val
      = normalizeBrain a.imgSizeH a.imgSizeW (maskedGradients cv a).val := rfl

lemma thresholdedGradients_val (cv : CVLib) (a : SalArgs) :
    (thresholdedGradients cv a).val
      = applyThreshold
          (percentile80 (maskedValues a.imgSizeH a.imgSizeW (normalizedGradients cv a).val))
          (normalizedGradients cv a).val := rfl

lemma mem_maskedValues (rows cols : ℕ) (g : Map2) (r c : ℕ)
    (hr : r < rows) (hc : c < cols) (hm : mask rows cols r c = true) :
    g r c ∈ maskedValues rows cols g := by
  have hp : (r, c) ∈ maskedPixels rows cols := mem_maskedPixels.mpr ⟨hr, hc, hm⟩
  unfold maskedValues
  have h2 := List.mem_map_of_mem (fun p : ℕ × ℕ => g p.1 p.2) hp
  simpa using h2

lemma foldl_min_le_init (l : List ℚ) (a : ℚ) : l.foldl min a ≤ a := by
  induction l generalizing a with
  | nil => simp
  | cons x xs ih => exact le_trans (ih (min a x)) (min_le_left a x)

lemma foldl_min_le_mem (l : List ℚ) (a : ℚ) : ∀ x ∈ l, l.foldl min a ≤ x := by
  induction l generalizing a with
  | nil => simp
  | cons y ys ih =>
    intro x hx
    rcases List.mem_cons.mp hx with h | h
    · subst h
      exact le_trans (foldl_min_le_init ys (min a x)) (min_le_right a x)
    · exact ih (min a y) x h

lemma le_foldl_min {v : ℚ} (l : List ℚ) (a : ℚ) (hva : v ≤ a)
    (h : ∀ x ∈ l, v ≤ x) : v ≤ l.foldl min a := by
  induction l generalizing a with
  | nil => exact hva
  | cons x xs ih =>
    exact ih (min a x) (le_min hva (h x (List.mem_cons_self x xs)))
      fun y hy => h y (List.mem_cons_of_mem x hy)

lemma init_le_foldl_max (l : List ℚ) (a : ℚ) : a ≤ l.foldl max a := by
  induction l generalizing a with
  | nil => simp
  | cons x xs ih => exact le_trans (le_max_left a x) (ih (max a x))

lemma mem_le_foldl_max (l : List ℚ) (a : ℚ) : ∀ x ∈ l, x ≤ l.foldl max a := by
  induction l generalizing a with
  | nil => simp
  | cons y ys ih =>
    intro x hx
    rcases List.mem_cons.mp hx with h | h
    · subst h
      exact le_trans (le_max_right a x) (init_le_foldl_max ys (max a x))
    · exact ih (max a y) x h

lemma foldl_max_le {v : ℚ} (l : List ℚ) (a : ℚ) (hva : a ≤ v)
    (h : ∀ x ∈ l, x ≤ v) : l.foldl max a ≤ v := by
  induction l generalizing a with
  | nil => exact hva
  | cons x xs ih =>
    exact ih (max a x) (max_le hva (h x (List.mem_cons_self x xs)))
      fun y hy => h y (List.mem_cons_of_mem x hy)

lemma listMin_le_of_mem {l : List ℚ} {x : ℚ} (h : x ∈ l) : listMin l ≤ x := by
  cases l with
  | nil => simp at h
  | cons a xs =>
    rcases List.mem_cons.mp h with h | h
    · subst h; exact foldl_min_le_init xs x
    · exact foldl_min_le_mem xs a x h

lemma le_listMax_of_mem {l : List ℚ} {x : ℚ} (h : x ∈ l) : x ≤ listMax l := by
  cases l with
  | nil => simp at h
  | cons a xs =>
    rcases List.mem_cons.mp h with h | h
    · subst h; exact init_le_foldl_max xs x
    · exact mem_le_foldl_max xs a x h

lemma listMin_le_listMax (l : List ℚ) : listMin l ≤ listMax l := by
  cases l with
  | nil => exact le_refl 0
  | cons a xs =>
    exact le_trans (foldl_min_le_init xs a) (init_le_foldl_max xs a)

lemma listMin_eq_listMax_of_all_eq {l : List ℚ} {v : ℚ}
    (h : ∀ x ∈ l, x = v) : listMin l = listMax l := by
  cases l with
  | nil => rfl
  | cons a xs =>
    have ha : a = v := h a (List.mem_cons_self a xs)
    have hmin : listMin (a :: xs) = v := by
      refine le_antisymm ?_ ?_
      · exact le_trans (listMin_le_of_mem (List.mem_cons_self a xs)) (le_of_eq ha)
      · exact le_foldl_min xs a (le_of_eq ha.symm)
          fun x hx => le_of_eq (h x (List.mem_cons_of_mem a hx)).symm
    have hmax : listMax (a :: xs) = v := by
      refine le_antisymm ?_ ?_
      · exact foldl_max_le xs a (le_of_eq ha)
          fun x hx => le_of_eq (h x (List.mem_cons_of_mem a hx))
      · exact le_trans (le_of_eq ha.symm) (le_listMax_of_mem (List.mem_cons_self a xs))
    rw [hmin, hmax]

lemma normalizeBrain_val_masked {rows cols : ℕ} {g : Map2} {r c : ℕ}
    (hm : mask rows cols r c = true)
    (hlt : listMin (maskedValues rows cols g) < listMax (maskedValues rows cols g)) :
    normalizeBrain rows cols g r c =
      (g r c - listMin (maskedValues rows cols g)) /
        (listMax (maskedValues rows cols g) - listMin (maskedValues rows cols g)) := by
  simp only [normalizeBrain, hm, if_true, hlt, if_pos]

lemma normalizeBrain_val_flat {rows cols : ℕ} {g : Map2} {r c : ℕ}
    (hlt : ¬ listMin (maskedValues rows cols g) < listMax (maskedValues rows cols g)) :
    normalizeBrain rows cols g r c = g r c := by
  simp only [normalizeBrain, hlt, if_false]
  by_cases hm : mask rows cols r c = true <;> simp [hm]

lemma applyMask_val_unmasked {rows cols : ℕ} {g : Map2} {r c : ℕ}
    (hm : mask rows cols r c = false) : applyMask rows cols g r c = 0 := by
  simp [applyMask, hm]

lemma applyMask_val_masked {rows cols : ℕ} {g : Map2} {r c : ℕ}
    (hm : mask rows cols r c = true) : applyMask rows cols g r c = g r c := by
  simp [applyMask, hm]

/-- The guarded min-max normalization applied after masking: either every
grid value ends up in `[0, 1]`, or the masked region is flat and the whole
field is left unchanged. -/
lemma normalizeBrain_cases (rows cols : ℕ) (g0 : Map2) :
    (∀ r, r < rows → ∀ c, c < cols →
        0 ≤ normalizeBrain rows cols (applyMask rows cols g0) r c
          ∧ normalizeBrain rows cols (applyMask rows cols g0) r c ≤ 1)
    ∨ (listMin (maskedValues rows cols (applyMask rows cols g0))
         = listMax (maskedValues rows cols (applyMask rows cols g0))
       ∧ ∀ r, r < rows → ∀ c, c < cols →
          (mask rows cols r c = true →
            normalizeBrain rows cols (applyMask rows cols g0) r c
              = applyMask rows cols g0 r c)
          ∧ (mask rows cols r c = false →
            normalizeBrain rows cols (applyMask rows cols g0) r c = 0)) := by
  by_cases hlt : listMin (maskedValues rows cols (applyMask rows cols g0))
      < listMax (maskedValues rows cols (applyMask rows cols g0))
  · left
    intro r hr c hc
    by_cases hm : mask rows cols r c = true
    · have hmem : applyMask rows cols g0 r c
          ∈ maskedValues rows cols (applyMask rows cols g0) :=
        mem_maskedValues rows cols (applyMask rows cols g0) r c hr hc hm
      have h1 := listMin_le_of_mem hmem
      have h2 := le_listMax_of_mem hmem
      have hpos : 0 < listMax (maskedValues rows cols (applyMask rows cols g0))
          - listMin (maskedValues rows cols (applyMask rows cols g0)) := sub_pos.mpr hlt
      rw [normalizeBrain_val_masked hm hlt]
      constructor
      · exact div_nonneg (sub_nonneg.mpr h1) (le_of_lt hpos)
      · rw [div_le_one hpos]
        exact sub_le_sub_right h2 _
    · have hm2 : mask rows cols r c = false := by
        cases h : mask rows cols r c
        · rfl
        · exact absurd h hm
      simp only [normalizeBrain, hm2]
      rw [applyMask_val_unmasked hm2]
      norm_num
  · right
    refine ⟨le_antisymm (listMin_le_listMax _) (not_lt.mp hlt), ?_⟩
    intro r hr c hc
    refine ⟨fun _ => normalizeBrain_val_flat hlt, fun hm => ?_⟩
    rw [normalizeBrain_val_flat hlt]
    exact applyMask_val_unmasked hm

/-- Claim C3 (amended): after masking and normalization every value on the
grid lies in `[0, 1]`, *or* the masked region is degenerate (its minimum
equals its maximum), in which case the masked values are left equal to that
common unnormalized value — which need not be zero, and need not lie in
`[0, 1]` — while every value outside the mask is zero. -/
theorem C3_amended (cv : CVLib) (a : SalArgs) :
    (∀ r, r < (normalizedGradients cv a).rows → ∀ c, c < (normalizedGradients cv a).cols →
        0 ≤ (normalizedGradients cv a).val r c ∧ (normalizedGradients cv a).val r c ≤ 1)
    ∨ (listMin (maskedValues (maskedGradients cv a).rows (maskedGradients cv a).cols
          (maskedGradients cv a).val)
        = listMax (maskedValues (maskedGradients cv a).rows (maskedGradients cv a).cols
          (maskedGradients cv a).val)
       ∧ ∀ r, r < (normalizedGradients cv a).rows → ∀ c, c < (normalizedGradients cv a).cols →
          (mask (maskedGradients cv a).rows (maskedGradients cv a).cols r c = true →
            (normalizedGradients cv a).val r c = (maskedGradients cv a).val r c)
          ∧ (mask (maskedGradients cv a).rows (maskedGradients cv a).cols r c = false →
            (normalizedGradients cv a).val r c = 0)) :=
  normalizeBrain_cases (resizedGradients cv a).rows (resizedGradients cv a).cols
    (resizedGradients cv a).val

lemma aConst_masked_val (v : ℚ) (r c : ℕ) (hm : mask 299 299 r c = true) :
    (maskedGradients cvId (aConst v)).val r c = v := by
  rw [maskedGradients_val]
  show applyMask 299 299 (resizedGradients cvId (aConst v)).val r c = v
  rw [applyMask_val_masked hm]
  rfl

lemma aConst_vals_const (v : ℚ) :
    ∀ x ∈ maskedValues 299 299 (maskedGradients cvId (aConst v)).val, x = v := by
  intro x hx
  rcases List.mem_map.mp hx with ⟨p, hp, hval⟩
  rcases mem_maskedPixels.mp hp with ⟨_, _, hm⟩
  rw [← hval]
  exact aConst_masked_val v p.1 p.2 hm

lemma aConst_norm_val (v : ℚ) (r c : ℕ) (hm : mask 299 299 r c = true) :
    (normalizedGradients cvId (aConst v)).val r c = v := by
  have hflat : ¬ (listMin (maskedValues 299 299 (maskedGradients cvId (aConst v)).val)
      < listMax (maskedValues 299 299 (maskedGradients cvId (aConst v)).val)) := by
    rw [listMin_eq_listMax_of_all_eq (aConst_vals_const v)]
    exact lt_irrefl _
  rw [normalizedGradients_val]
  show normalizeBrain 299 299 (maskedGradients cvId (aConst v)).val r c = v
  rw [normalizeBrain_val_flat hflat]
  exact aConst_masked_val v r c hm

lemma aC3_center_val : (normalizedGradients cvId aC3).val 149 149 = 5 :=
  aConst_norm_val 5 149 149 (by decide)

/-- Claim C3 (counterexample): for the flat but non-zero gradient array that
is constant 5, after masking and normalization the value at the center pixel
is still 5 — so the gradient map neither lies in `[0, 1]` nor is all zero,
refuting the claim as stated. -/
theorem C3_counterexample :
    ¬ ((∀ r, r < 299 → ∀ c, c < 299 →
          0 ≤ (normalizedGradients cvId aC3).val r c
            ∧ (normalizedGradients cvId aC3).val r c ≤ 1)
       ∨ (∀ r, r < 299 → ∀ c, c < 299 → (normalizedGradients cvId aC3).val r c = 0)) := by
  intro h
  rcases h with h | h
  · have := (h 149 (by norm_num) 149 (by norm_num)).2
    rw [aC3_center_val] at this
    norm_num at this
  · have := h 149 (by norm_num) 149 (by norm_num)
    rw [aC3_center_val] at this
    norm_num at this

lemma sortedVals_sorted (l : List ℚ) : (sortedVals l).Sorted (fun a b => a ≤ b) :=
  List.sorted_insertionSort _ l

lemma sortedVals_perm (l : List ℚ) : List.Perm (sortedVals l) l :=
  List.perm_insertionSort _ l

lemma sortedVals_length (l : List ℚ) : (sortedVals l).length = l.length :=
  (sortedVals_perm l).length_eq

lemma mem_take_le_get :
    ∀ (s : List ℚ) (k : ℕ) (hk : k < s.length) (x : ℚ),
      s.Sorted (fun a b => a ≤ b) → x ∈ s.take (k + 1) → x ≤ s.get ⟨k, hk⟩ := by
  intro s
  induction s with
  | nil =>
    intro k hk
    simp at hk
  | cons a s ih =>
    intro k hk x hs hx
    rw [List.take_succ_cons] at hx
    rcases List.mem_cons.mp hx with h | h
    · subst h
      cases k with
      | zero => exact le_refl x
      | succ k =>
        exact List.rel_of_sorted_cons hs _ (List.get_mem s k (Nat.lt_of_succ_lt_succ hk))
    · cases k with
      | zero => simp at h
      | succ k =>
        exact ih k (Nat.lt_of_succ_lt_succ hk) x (List.Sorted.of_cons hs) h

lemma countP_take_zero {s : List ℚ} {k : ℕ} (hk : k < s.length)
    (hs : s.Sorted (fun a b => a ≤ b)) {t : ℚ} (ht : s.get ⟨k, hk⟩ ≤ t) :
    (s.take (k + 1)).countP (fun v => decide (t < v)) = 0 := by
  rw [List.countP_eq_zero]
  intro x hx
  simp only [decide_eq_true_eq]
  exact not_lt.mpr (le_trans (mem_take_le_get s k hk x hs hx) ht)

/-- In a sorted list, at most `length - (k + 1)` entries lie strictly above
any bound that is at least the entry at position `k`. -/
lemma countP_gt_le {s : List ℚ} {k : ℕ} (hk : k < s.length)
    (hs : s.Sorted (fun a b => a ≤ b)) {t : ℚ} (ht : s.get ⟨k, hk⟩ ≤ t) :
    s.countP (fun v => decide (t < v)) ≤ s.length - (k + 1) := by
  conv_lhs => rw [← List.take_append_drop (k + 1) s]
  rw [List.countP_append, countP_take_zero hk hs ht, Nat.zero_add]
  calc (s.drop (k + 1)).countP (fun v => decide (t < v))
      ≤ (s.drop (k + 1)).length := List.countP_le_length _
    _ = s.length - (k + 1) := List.length_drop (k + 1) s

lemma pctK_lt_length {n : ℕ} (h1 : 1 ≤ n) : pctK n < n := by
  unfold pctK
  omega

lemma pctG_nonneg (n : ℕ) : 0 ≤ pctG n := by
  unfold pctG pctK
  have h := @Nat.cast_div_le ℚ _ (4 * (n - 1)) 5
  have h5 : ((5 : ℕ) : ℚ) = 5 := by norm_num
  rw [h5] at h
  linarith

lemma getD_sorted_le_next {s : List ℚ} (hs : s.Sorted (fun a b => a ≤ b)) {k : ℕ}
    (hk : k < s.length) :
    s.getD k 0 ≤ s.getD (k + 1) (s.getD k 0) := by
  by_cases h : k + 1 < s.length
  · rw [List.getD_eq_getElem?_getD s (k + 1) (s.getD k 0), List.getElem?_eq_getElem h,
      Option.getD_some]
    rw [List.getD_eq_getElem?_getD s k 0, List.getElem?_eq_getElem hk, Option.getD_some]
    have hlt : (⟨k, hk⟩ : Fin s.length) < ⟨k + 1, h⟩ := by
      simp [Fin.lt_def]
    have := hs.rel_get_of_lt hlt
    simpa [List.get_eq_getElem] using this
  · rw [List.getD_eq_getElem?_getD s (k + 1) (s.getD k 0),
      List.getElem?_eq_none (not_lt.mp h), Option.getD_none]

/-- The 80th percentile is at least the sorted entry at the lower
interpolation index. -/
lemma le_percentile80 (l : List ℚ) (h1 : 1 ≤ l.length) :
    (sortedVals l).getD (pctK l.length) 0 ≤ percentile80 l := by
  have hk : pctK l.length < (sortedVals l).length := by
    rw [sortedVals_length]
    exact pctK_lt_length h1
  have hg := pctG_nonneg l.length
  have hAB := getD_sorted_le_next (sortedVals_sorted l) hk
  have hprod : 0 ≤ pctG l.length *
      ((sortedVals l).getD (pctK l.length + 1) ((sortedVals l).getD (pctK l.length) 0)
        - (sortedVals l).getD (pctK l.length) 0) :=
    mul_nonneg hg (sub_nonneg.mpr hAB)
  unfold percentile80
  linarith

/-- At most `N - 1 - floor(0.8 (N - 1))` of the `N` values lie strictly above
their 80th percentile (with linear interpolation) — roughly 20 percent. -/
lemma percentile80_countP_le (l : List ℚ) (h1 : 1 ≤ l.length) :
    l.countP (fun v => decide (percentile80 l < v))
      ≤ l.length - 1 - 4 * (l.length - 1) / 5 := by
  have hk : pctK l.length < (sortedVals l).length := by
    rw [sortedVals_length]
    exact pctK_lt_length h1
  have ht : (sortedVals l).get ⟨pctK l.length, hk⟩ ≤ percentile80 l := by
    have h2 := le_percentile80 l h1
    rw [List.getD_eq_getElem?_getD (sortedVals l) (pctK l.length) 0,
      List.getElem?_eq_getElem hk, Option.getD_some] at h2
    simpa [List.get_eq_getElem] using h2
  have hcount := countP_gt_le hk (sortedVals_sorted l) ht
  rw [sortedVals_length] at hcount
  have hperm : l.countP (fun v => decide (percentile80 l < v))
      = (sortedVals l).countP (fun v => decide (percentile80 l < v)) :=
    ((sortedVals_perm l).countP_eq _).symm
  rw [hperm]
  unfold pctK at hcount
  omega

lemma percentile80_of_all_eq {l : List ℚ} {v : ℚ} (h : ∀ x ∈ l, x = v)
    (h1 : 1 ≤ l.length) : percentile80 l = v := by
  have hs : ∀ x ∈ sortedVals l, x = v := fun x hx =>
    h x ((sortedVals_perm l).mem_iff.mp hx)
  have hk : pctK l.length < (sortedVals l).length := by
    rw [sortedVals_length]
    exact pctK_lt_length h1
  have e1 : (sortedVals l).getD (pctK l.length) 0 = v := by
    rw [List.getD_eq_getElem?_getD (sortedVals l) (pctK l.length) 0,
      List.getElem?_eq_getElem hk, Option.getD_some]
    exact hs _ (List.getElem_mem hk)
  have e2 : (sortedVals l).getD (pctK l.length + 1) ((sortedVals l).getD (pctK l.length) 0)
      = v := by
    by_cases h2 : pctK l.length + 1 < (sortedVals l).length
    · rw [List.getD_eq_getElem?_getD (sortedVals l) (pctK l.length + 1) _,
        List.getElem?_eq_getElem h2, Option.getD_some]
      exact hs _ (List.getElem_mem h2)
    · rw [List.getD_eq_getElem?_getD (sortedVals l) (pctK l.length + 1) _,
        List.getElem?_eq_none (not_lt.mp h2), Option.getD_none]
      exact e1
  unfold percentile80
  rw [e2, e1]
  ring

lemma percentile80_of_all_zero {l : List ℚ} (h : ∀ x ∈ l, x = 0) :
    percentile80 l = 0 := by
  cases l with
  | nil => norm_num [percentile80, sortedVals, pctK, pctG]
  | cons a xs => exact percentile80_of_all_eq h (by simp)

/-- Claim C6 (amended): with `N` masked values and `t` their 80th percentile
(numpy's linear interpolation), at most `N - 1 - floor(0.8 (N - 1))` masked
pixels — roughly 20 percent — carry values *strictly above* `t`, and every
pixel whose value is strictly below `t` is zeroed; but pixels whose value
ties with `t` are also retained as non-zero, so the fraction retaining a
non-zero value can exceed 20 percent (up to 100 percent for a flat masked
region). -/
theorem C6_amended (cv : CVLib) (a : SalArgs)
    (h1 : 1 ≤ (maskedValues a.imgSizeH a.imgSizeW (normalizedGradients cv a).val).length) :
    (maskedValues a.imgSizeH a.imgSizeW (normalizedGradients cv a).val).countP
        (fun v => decide
          (percentile80 (maskedValues a.imgSizeH a.imgSizeW (normalizedGradients cv a).val) < v))
      ≤ (maskedValues a.imgSizeH a.imgSizeW (normalizedGradients cv a).val).length - 1
        - 4 * ((maskedValues a.imgSizeH a.imgSizeW (normalizedGradients cv a).val).length - 1) / 5
    ∧ ∀ r c, (normalizedGradients cv a).val r c
          < percentile80 (maskedValues a.imgSizeH a.imgSizeW (normalizedGradients cv a).val) →
        (thresholdedGradients cv a).val r c = 0 := by
  constructor
  · exact percentile80_countP_le _ h1
  · intro r c h
    rw [thresholdedGradients_val]
    unfold applyThreshold
    rw [if_pos h]

/-- Claim C6 (witness): the amended statement holds at the concrete 2 × 2
instance. -/
theorem C6_witness :
    1 ≤ (maskedValues aW6.imgSizeH aW6.imgSizeW (normalizedGradients cvId aW6).val).length
    ∧ ((maskedValues aW6.imgSizeH aW6.imgSizeW (normalizedGradients cvId aW6).val).countP
          (fun v => decide
            (percentile80 (maskedValues aW6.imgSizeH aW6.imgSizeW
              (normalizedGradients cvId aW6).val) < v))
        ≤ (maskedValues aW6.imgSizeH aW6.imgSizeW (normalizedGradients cvId aW6).val).length - 1
          - 4 * ((maskedValues aW6.imgSizeH aW6.imgSizeW
              (normalizedGradients cvId aW6).val).length - 1) / 5
      ∧ ∀ r c, (normalizedGradients cvId aW6).val r c
            < percentile80 (maskedValues aW6.imgSizeH aW6.imgSizeW
                (normalizedGradients cvId aW6).val) →
          (thresholdedGradients cvId aW6).val r c = 0) :=
  ⟨by decide, C6_amended cvId aW6 (by decide)⟩

/-- Concrete input for the C6 counterexample: constant gradient 7 at
299 × 299. -/
def aC6 : SalArgs := aConst 7

/-- External-call instantiation for the C5 witness: the colormap is the
constant gray value 100 and the resizes keep the pixel field. -/
def cvW5 : CVLib :=
  ⟨fun a _ _ => a.val, fun a _ _ => a.val, fun a => a.val,
    fun _ _ => 100, fun _ _ _ => fun _ _ _ => 0⟩

/-- Arguments for the C5 witness: a 2 × 2 grid with the original image
constant 50. -/
def aW5 : SalArgs :=
  ⟨⟨2, 2, fun _ _ => 0⟩, ⟨2, 2, fun _ _ _ => 50⟩, 2, 2, fileScan⟩

/-- Arguments for the C1 counterexample: the 512 × 512 upload `scan.png`
prepared by `display_tab_content` for the Xception branch —
`img = load_img(uploaded_file, target_size=(299, 299))` — with
`img_size = (299, 299)` passed to the saliency engine. -/
def aC1 : SalArgs :=
  ⟨⟨299, 299, fun _ _ => 0⟩, load_img cvId fileScan 299 299, 299, 299, fileScan⟩

/-- `output_dir = 'saliency_maps'` (app.py line 20). -/
def output_dir : String := "saliency_maps"

/-- `os.path.join(d, f)` for the two-argument posix case used here: if the
second component is absolute (starts with a slash) it discards the first,
otherwise it joins with a slash. -/
def os_path_join (d f : String) : String :=
  if f.data.head? = some '/' then f else d ++ "/" ++ f

/-- The content of a written file: either the raw uploaded bytes
(`f.write(uploaded_file.getbuffer())`, line 118) or an encoded image
(`cv2.imwrite`, line 123). -/
inductive FileContent where
  | rawBytes : List ℕ → FileContent
  | encodedImage : Arr3N → FileContent

/-- The local filesystem as a map from path to content. -/
def Store : Type := String → Option FileContent

/-- Writing one file: the path now holds the new content, every other path
is untouched (an existing file at the path is silently overwritten). -/
def storeWrite (fs : Store) (p : String) (v : FileContent) : Store :=
  fun q => if q = p then some v else fs q

/-- `cv2.cvtColor(superimposed_img, cv2.COLOR_RGB2BGR)` (line 123). -/
def rgb2bgr (img : Arr3N) : Arr3N :=
  ⟨img.rows, img.cols, fun r c ch => img.val r c (bgrSwap ch)⟩

/-- The only Python-exception path of the routine's I/O tail: a failing
`open`/`write` for the raw copy raises and aborts the function. -/
inductive SaliencyError where
  | openFailed

/-- App.py lines 68-125 as a whole: compute the overlay (lines 69-114), then
write the raw uploaded bytes to `os.path.join(output_dir, name)` (lines
116-118, aborting with an exception when that write fails), then write the
BGR-converted overlay to `'saliency_maps/' + name` via `cv2.imwrite` (lines
120-123) — which reports failure only through its *ignored* boolean result,
modelled by `imwriteOk` leaving the store unchanged — and finally return the
in-memory overlay (line 125). -/
def generate_saliency_map (cv : CVLib) (a : SalArgs) (openOk imwriteOk : Bool)
    (fs : Store) : Except SaliencyError (Store × Arr3N) :=
  match openOk with
  | false => Except.error SaliencyError.openFailed
  | true =>
    let fs1 := storeWrite fs (os_path_join output_dir a.file.name)
      (FileContent.rawBytes a.file.bytes)
    let fs2 :=
      match imwriteOk with
      | true => storeWrite fs1 ("saliency_maps/" ++ a.file.name)
          (FileContent.encodedImage (rgb2bgr (superimposedUint8 cv a)))
      | false => fs1
    Except.ok (fs2, superimposedUint8 cv a)

/-- `labels = ['Glioma', 'Meningioma', 'No tumor', 'Pituitary']` (app.py
line 176). -/
def labels : List String := ["Glioma", "Meningioma", "No tumor", "Pituitary"]

/-- An initially empty filesystem. -/
def emptyStore : Store := fun _ => none

/-- The concrete run used by the C4 counterexample. -/
def runC4 : Except SaliencyError (Store × Arr3N) :=
  generate_saliency_map cvId (aConst 0) true true emptyStore

/-- The filesystem left behind by `runC4`. -/
def storeC4 : Store :=
  match runC4 with
  | Except.ok sv => sv.1
  | Except.error _ => emptyStore

lemma aC6_thresh_val (r c : ℕ) (hm : mask 299 299 r c = true) :
    (thresholdedGradients cvId aC6).val r c = 7 := by
  show (thresholdedGradients cvId (aConst 7)).val r c = 7
  have hvals : ∀ x ∈ maskedValues 299 299 (normalizedGradients cvId (aConst 7)).val, x = 7 := by
    intro x hx
    rcases List.mem_map.mp hx with ⟨p, hp, hval⟩
    rcases mem_maskedPixels.mp hp with ⟨_, _, hm2⟩
    rw [← hval]
    exact aConst_norm_val 7 p.1 p.2 hm2
  have hne : 1 ≤ (maskedValues 299 299 (normalizedGradients cvId (aConst 7)).val).length := by
    have hmem : (normalizedGradients cvId (aConst 7)).val 149 149
        ∈ maskedValues 299 299 (normalizedGradients cvId (aConst 7)).val :=
      mem_maskedValues 299 299 (normalizedGradients cvId (aConst 7)).val 149 149
        (by norm_num) (by norm_num) (by decide)
    exact List.length_pos.mpr (List.ne_nil_of_mem hmem)
  have ht : percentile80 (maskedValues 299 299 (normalizedGradients cvId (aConst 7)).val) = 7 :=
    percentile80_of_all_eq hvals hne
  rw [thresholdedGradients_val]
  show applyThreshold
      (percentile80 (maskedValues 299 299 (normalizedGradients cvId (aConst 7)).val))
      (normalizedGradients cvId (aConst 7)).val r c = 7
  unfold applyThreshold
  rw [aConst_norm_val 7 r c hm, ht]
  norm_num

/-- Claim C6 (counterexample): for the flat non-zero gradient constant 7,
after thresholding at the 80th percentile *every* masked pixel (100 percent,
and there is at least one) retains the non-zero value 7, refuting "at most
approximately 20 percent" (even granting slack up to 40 percent). -/
theorem C6_counterexample :
    1 ≤ (maskedValues 299 299 (thresholdedGradients cvId aC6).val).length
    ∧ (maskedValues 299 299 (thresholdedGradients cvId aC6).val).countP
          (fun v => decide (¬ v = 0))
        = (maskedValues 299 299 (thresholdedGradients cvId aC6).val).length
    ∧ ¬ (((maskedValues 299 299 (thresholdedGradients cvId aC6).val).countP
            (fun v => decide (¬ v = 0)) : ℚ)
          ≤ 2 / 5 * ((maskedValues 299 299 (thresholdedGradients cvId aC6).val).length : ℚ)) := by
  have hvals : ∀ x ∈ maskedValues 299 299 (thresholdedGradients cvId aC6).val, x = 7 := by
    intro x hx
    rcases List.mem_map.mp hx with ⟨p, hp, hval⟩
    rcases mem_maskedPixels.mp hp with ⟨_, _, hm⟩
    rw [← hval]
    exact aC6_thresh_val p.1 p.2 hm
  have hne : 1 ≤ (maskedValues 299 299 (thresholdedGradients cvId aC6).val).length := by
    have hmem : (thresholdedGradients cvId aC6).val 149 149
        ∈ maskedValues 299 299 (thresholdedGradients cvId aC6).val :=
      mem_maskedValues 299 299 (thresholdedGradients cvId aC6).val 149 149
        (by norm_num) (by norm_num) (by decide)
    exact List.length_pos.mpr (List.ne_nil_of_mem hmem)
  have hcount : (maskedValues 299 299 (thresholdedGradients cvId aC6).val).countP
      (fun v => decide (¬ v = 0))
      = (maskedValues 299 299 (thresholdedGradients cvId aC6).val).length := by
    rw [List.countP_eq_length]
    intro x hx
    rw [hvals x hx]
    norm_num
  refine ⟨hne, hcount, ?_⟩
  intro habs
  rw [hcount] at habs
  have hc : (1 : ℚ) ≤ ((maskedValues 299 299 (thresholdedGradients cvId aC6).val).length : ℚ) := by
    exact_mod_cast hne
  linarith

/-- Claim C2: when every masked gradient value is zero, (a) the min-max
normalization is skipped as a no-op (the guard `max > min` fails, so no
division is evaluated and the field is unchanged), (b) the gradient map
entering the blur is identically zero on the grid, and (c) the returned
overlay is the blend `uint8(heatmap * 0.7 + originalImage * 0.3)` pixel by
pixel, where `heatmap` is the colorized (blurred) zero map. -/
theorem C2_theorem (cv : CVLib) (a : SalArgs)
    (hz : ∀ r, r < a.imgSizeH → ∀ c, c < a.imgSizeW →
        mask a.imgSizeH a.imgSizeW r c = true → (resizedGradients cv a).val r c = 0) :
    (∀ r c, (normalizedGradients cv a).val r c = (maskedGradients cv a).val r c)
    ∧ (∀ r, r < a.imgSizeH → ∀ c, c < a.imgSizeW → (thresholdedGradients cv a).val r c = 0)
    ∧ ∀ r c ch, (superimposedUint8 cv a).val r c ch
        = uint8cast ((heatmap cv a).val r c ch * (7 / 10) + a.img.val r c ch * (3 / 10)) := by
  have hvals0 : ∀ x ∈ maskedValues a.imgSizeH a.imgSizeW (maskedGradients cv a).val,
      x = 0 := by
    intro x hx
    rcases List.mem_map.mp hx with ⟨p, hp, hval⟩
    rcases mem_maskedPixels.mp hp with ⟨h1, h2, hm⟩
    rw [← hval, maskedGradients_val, applyMask_val_masked hm]
    exact hz p.1 h1 p.2 h2 hm
  have hflat : ¬ (listMin (maskedValues a.imgSizeH a.imgSizeW (maskedGradients cv a).val)
      < listMax (maskedValues a.imgSizeH a.imgSizeW (maskedGradients cv a).val)) := by
    rw [listMin_eq_listMax_of_all_eq hvals0]
    exact lt_irrefl _
  have conj1 : ∀ r c, (normalizedGradients cv a).val r c = (maskedGradients cv a).val r c := by
    intro r c
    rw [normalizedGradients_val]
    exact normalizeBrain_val_flat hflat
  have hgrid0 : ∀ r, r < a.imgSizeH → ∀ c, c < a.imgSizeW →
      (normalizedGradients cv a).val r c = 0 := by
    intro r hr c hc
    rw [conj1, maskedGradients_val]
    by_cases hm : mask a.imgSizeH a.imgSizeW r c = true
    · rw [applyMask_val_masked hm]
      exact hz r hr c hc hm
    · have hm2 : mask a.imgSizeH a.imgSizeW r c = false := by
        cases h : mask a.imgSizeH a.imgSizeW r c
        · rfl
        · exact absurd h hm
      exact applyMask_val_unmasked hm2
  refine ⟨conj1, ?_, fun r c ch => rfl⟩
  have hnormvals : ∀ x ∈ maskedValues a.imgSizeH a.imgSizeW (normalizedGradients cv a).val,
      x = 0 := by
    intro x hx
    rcases List.mem_map.mp hx with ⟨p, hp, hval⟩
    rcases mem_maskedPixels.mp hp with ⟨h1, h2, _⟩
    rw [← hval]
    exact hgrid0 p.1 h1 p.2 h2
  have ht := percentile80_of_all_zero hnormvals
  intro r hr c hc
  rw [thresholdedGradients_val]
  unfold applyThreshold
  rw [hgrid0 r hr c hc, ht]
  norm_num

/-- Claim C2 (witness): the theorem applied to the all-zero gradient array
at 299 × 299. -/
theorem C2_witness :
    (∀ r, r < (aConst 0).imgSizeH → ∀ c, c < (aConst 0).imgSizeW →
        mask (aConst 0).imgSizeH (aConst 0).imgSizeW r c = true →
        (resizedGradients cvId (aConst 0)).val r c = 0)
    ∧ ((∀ r c, (normalizedGradients cvId (aConst 0)).val r c
          = (maskedGradients cvId (aConst 0)).val r c)
      ∧ (∀ r, r < (aConst 0).imgSizeH → ∀ c, c < (aConst 0).imgSizeW →
          (thresholdedGradients cvId (aConst 0)).val r c = 0)
      ∧ ∀ r c ch, (superimposedUint8 cvId (aConst 0)).val r c ch
          = uint8cast ((heatmap cvId (aConst 0)).val r c ch * (7 / 10)
              + (aConst 0).img.val r c ch * (3 / 10))) :=
  ⟨fun _ _ _ _ _ => rfl, C2_theorem cvId (aConst 0) (fun _ _ _ _ _ => rfl)⟩

/-- Claim C7 (counterexample): the claim quantifies over every `targetSize`
whose minimum dimension is at least 22, but for the non-square shape
22 × 26 (min dimension 22) the center pixel (row 11, column 13) is *masked
out*: because of the swapped axis centers its mask value is
`(13 - 11)^2 + (11 - 13)^2 = 8 > radius^2 = 1`. -/
theorem C7_counterexample :
    min 22 26 = 22 ∧ mask 22 26 (22 / 2) (26 / 2) = false := by decide

/-- Claim C7 (amended): for every *square* target size `n × n` with
`n ≥ 22`, the center pixel `(n / 2, n / 2)` is a valid pixel and is inside
the circular mask. -/
theorem C7_amended (n : ℕ) (h : 22 ≤ n) :
    n / 2 < n ∧ mask n n (n / 2) (n / 2) = true := by
  constructor
  · omega
  · have hz : ((n / 2 : ℕ) : ℤ) - ((n / 2 : ℕ) : ℤ) = 0 := sub_self _
    simp only [mask, decide_eq_true_eq, hz]
    have : (0 : ℤ) ≤ (radius n n) ^ 2 := sq_nonneg _
    simpa using this

/-- Claim C7 (witness): the amended statement at the Xception input size
299 × 299. -/
theorem C7_witness :
    22 ≤ 299 ∧ (299 / 2 < 299 ∧ mask 299 299 (299 / 2) (299 / 2) = true) :=
  ⟨by decide, C7_amended 299 (by decide)⟩

/-- Claim C10 (counterexample): the claim's "exactly when the gradient map is
square" fails in the only-if direction: for the non-square shape 2 × 3 the
two centers `rows // 2 = 1` and `cols // 2 = 1` happen to coincide, so the
code's mask agrees with the truly centered mask at every pixel of the grid
even though the map is not square. -/
theorem C10_counterexample :
    (∀ r, r < 2 → ∀ c, c < 3 → mask 2 3 r c = centeredMask 2 3 r c) ∧ ¬(2 = 3) := by
  decide

/-- Claim C10 (amended): the mask is built with the x-axis center taken from
the row count and the y-axis center from the column count; for every square
gradient map — in particular the classifier sizes 299 × 299 and 224 × 224 —
it coincides with the truly centered mask at every pixel (it may also
coincide for some non-square shapes). -/
theorem C10_amended (n r c : ℕ) : mask n n r c = centeredMask n n r c := rfl

/-- Claim C5: for every pixel and channel the returned overlay value equals
`uint8(clip(heatmap * 0.7 + original * 0.3, 0, 255))`.  The hypotheses
record the ranges that always hold in the app: the colorized heatmap and the
8-bit original image lie in `[0, 255]` per channel, so the blend lies in
`[0, 255]`, the clip is a no-op, and the code's unclipped `astype(np.uint8)`
cast coincides with the claimed clipped cast. -/
theorem C5_theorem (cv : CVLib) (a : SalArgs)
    (hh : ∀ r c ch, 0 ≤ (heatmap cv a).val r c ch ∧ (heatmap cv a).val r c ch ≤ 255)
    (ho : ∀ r c ch, 0 ≤ a.img.val r c ch ∧ a.img.val r c ch ≤ 255) :
    ∀ r c ch, (superimposedUint8 cv a).val r c ch
      = uint8cast (max 0 (min 255
          ((heatmap cv a).val r c ch * (7 / 10) + a.img.val r c ch * (3 / 10)))) := by
  intro r c ch
  rcases hh r c ch with ⟨h1, h2⟩
  rcases ho r c ch with ⟨h3, h4⟩
  have hx1 : 0 ≤ (heatmap cv a).val r c ch * (7 / 10) + a.img.val r c ch * (3 / 10) := by
    linarith
  have hx2 : (heatmap cv a).val r c ch * (7 / 10) + a.img.val r c ch * (3 / 10) ≤ 255 := by
    linarith
  rw [min_eq_right hx2, max_eq_right hx1]
  rfl

/-- Claim C5 (witness): the theorem applied to a concrete instantiation with
constant heatmap 100 and constant original image 50. -/
theorem C5_witness :
    (∀ r c ch, 0 ≤ (heatmap cvW5 aW5).val r c ch ∧ (heatmap cvW5 aW5).val r c ch ≤ 255)
    ∧ (∀ r c ch, 0 ≤ aW5.img.val r c ch ∧ aW5.img.val r c ch ≤ 255)
    ∧ ∀ r c ch, (superimposedUint8 cvW5 aW5).val r c ch
        = uint8cast (max 0 (min 255 ((heatmap cvW5 aW5).val r c ch * (7 / 10)
            + aW5.img.val r c ch * (3 / 10)))) := by
  have hh : ∀ r c ch, 0 ≤ (heatmap cvW5 aW5).val r c ch
      ∧ (heatmap cvW5 aW5).val r c ch ≤ 255 := by
    intro r c ch
    constructor
    · show (0 : ℚ) ≤ 100
      norm_num
    · show (100 : ℚ) ≤ 255
      norm_num
  have ho : ∀ r c ch, 0 ≤ aW5.img.val r c ch ∧ aW5.img.val r c ch ≤ 255 := by
    intro r c ch
    constructor
    · show (0 : ℚ) ≤ 50
      norm_num
    · show (50 : ℚ) ≤ 255
      norm_num
  exact ⟨hh, ho, C5_theorem cvW5 aW5 hh ho⟩

/-- Claim C8: the whole routine — overlay computation and I/O tail — is a
pure function of its inputs in this embedding (there is no randomness on the
path), so two runs on equal inputs return equal stores and bit-identical
overlay arrays. -/
theorem C8_theorem (cv : CVLib) (a b : SalArgs) (openOk imwriteOk : Bool)
    (fs gs : Store) (ha : a = b) (hfs : fs = gs) :
    generate_saliency_map cv a openOk imwriteOk fs
      = generate_saliency_map cv b openOk imwriteOk gs := by
  subst ha
  subst hfs
  rfl

/-- Claim C8 (witness): the theorem applied to two runs on the same concrete
input. -/
theorem C8_witness :
    aConst 0 = aConst 0 ∧ emptyStore = emptyStore
    ∧ generate_saliency_map cvId (aConst 0) true true emptyStore
        = generate_saliency_map cvId (aConst 0) true true emptyStore :=
  ⟨rfl, rfl, C8_theorem cvId (aConst 0) (aConst 0) true true emptyStore emptyStore rfl rfl⟩

/-- Claim C9: when the `cv2.imwrite` persisting the overlay fails (it
signals failure only through its ignored boolean result), the function still
returns the in-memory overlay to the caller; only the raw-bytes copy is on
the store. -/
theorem C9_theorem (cv : CVLib) (a : SalArgs) (fs : Store) :
    generate_saliency_map cv a true false fs
      = Except.ok (storeWrite fs (os_path_join output_dir a.file.name)
          (FileContent.rawBytes a.file.bytes), superimposedUint8 cv a) := rfl

lemma storeWrite_shadow (fs : Store) (p : String) (v w : FileContent) :
    storeWrite (storeWrite fs p v) p w = storeWrite fs p w := by
  funext q
  unfold storeWrite
  by_cases h : q = p <;> simp [h]

/-- Claim C4 (amended): the engine performs two writes, but both target the
*same* path — `os.path.join('saliency_maps', name)` and the literal
`'saliency_maps/' + name` coincide — so the raw-bytes copy is immediately
overwritten by the encoded overlay and a single file persists per upload
name; identically named uploads still silently overwrite (last write
wins). -/
theorem C4_amended (cv : CVLib) (a : SalArgs) (fs : Store)
    (hname : ¬ a.file.name.data.head? = some '/') :
    os_path_join output_dir a.file.name = "saliency_maps/" ++ a.file.name
    ∧ generate_saliency_map cv a true true fs
        = Except.ok (storeWrite fs ("saliency_maps/" ++ a.file.name)
            (FileContent.encodedImage (rgb2bgr (superimposedUint8 cv a))),
          superimposedUint8 cv a) := by
  have hpath : os_path_join output_dir a.file.name = "saliency_maps/" ++ a.file.name := by
    unfold os_path_join output_dir
    rw [if_neg hname]
    have hlit : ("saliency_maps" ++ "/" : String) = "saliency_maps/" := rfl
    rw [hlit]
  refine ⟨hpath, ?_⟩
  calc generate_saliency_map cv a true true fs
      = Except.ok (storeWrite
          (storeWrite fs (os_path_join output_dir a.file.name)
            (FileContent.rawBytes a.file.bytes))
          ("saliency_maps/" ++ a.file.name)
          (FileContent.encodedImage (rgb2bgr (superimposedUint8 cv a))),
        superimposedUint8 cv a) := rfl
    _ = Except.ok (storeWrite fs ("saliency_maps/" ++ a.file.name)
          (FileContent.encodedImage (rgb2bgr (superimposedUint8 cv a))),
        superimposedUint8 cv a) := by
        rw [hpath, storeWrite_shadow]

/-- Claim C4 (witness): the amended statement at the concrete upload
`scan.png` on an empty filesystem. -/
theorem C4_witness :
    ¬ (aConst 0).file.name.data.head? = some '/'
    ∧ (os_path_join output_dir (aConst 0).file.name
        = "saliency_maps/" ++ (aConst 0).file.name
      ∧ generate_saliency_map cvId (aConst 0) true true emptyStore
          = Except.ok (storeWrite emptyStore ("saliency_maps/" ++ (aConst 0).file.name)
              (FileContent.encodedImage (rgb2bgr (superimposedUint8 cvId (aConst 0)))),
            superimposedUint8 cvId (aConst 0))) :=
  ⟨by decide, C4_amended cvId (aConst 0) emptyStore (by decide)⟩

/-- Claim C4 (counterexample): the claim says the raw uploaded bytes and the
overlay are persisted *separately* (two files).  In the code
`output_dir = 'saliency_maps'`, so `os.path.join(output_dir, name)` equals
the literal `'saliency_maps/' + name`: both writes hit one path, and after
the run that path holds the encoded overlay — the raw-bytes copy has been
overwritten and is not on the filesystem. -/
theorem C4_counterexample :
    os_path_join output_dir fileScan.name = "saliency_maps/" ++ fileScan.name
    ∧ storeC4 ("saliency_maps/" ++ fileScan.name)
        = some (FileContent.encodedImage (rgb2bgr (superimposedUint8 cvId (aConst 0))))
    ∧ ¬ storeC4 ("saliency_maps/" ++ fileScan.name)
        = some (FileContent.rawBytes fileScan.bytes) := by
  have hrun : runC4 = Except.ok (storeWrite
      (storeWrite emptyStore (os_path_join output_dir fileScan.name)
        (FileContent.rawBytes fileScan.bytes))
      ("saliency_maps/" ++ fileScan.name)
      (FileContent.encodedImage (rgb2bgr (superimposedUint8 cvId (aConst 0)))),
    superimposedUint8 cvId (aConst 0)) := rfl
  have hstore : storeC4 = storeWrite
      (storeWrite emptyStore (os_path_join output_dir fileScan.name)
        (FileContent.rawBytes fileScan.bytes))
      ("saliency_maps/" ++ fileScan.name)
      (FileContent.encodedImage (rgb2bgr (superimposedUint8 cvId (aConst 0)))) := by
    unfold storeC4
    rw [hrun]
  have h2 : storeC4 ("saliency_maps/" ++ fileScan.name)
      = some (FileContent.encodedImage (rgb2bgr (superimposedUint8 cvId (aConst 0)))) := by
    rw [hstore]
    unfold storeWrite
    rw [if_pos rfl]
  refine ⟨by decide, h2, ?_⟩
  rw [h2]
  intro h
  simp at h

/-- Claim C1 (amended): the Gradient Map and the Heatmap Overlay have the
spatial dimensions of `img_size` — the *classifier's* input size, which is
also the size to which the blended "original" image was resized by
`load_img` — not the upload's own dimensions; and label index 0 maps to
"Glioma". -/
theorem C1_amended (cv : CVLib) (rawGrad : Arr2) (f : UploadedFile) (w h : ℕ) :
    (superimposedUint8 cv ⟨rawGrad, load_img cv f w h, w, h, f⟩).rows = h
    ∧ (superimposedUint8 cv ⟨rawGrad, load_img cv f w h, w, h, f⟩).cols = w
    ∧ (blurredGradients cv ⟨rawGrad, load_img cv f w h, w, h, f⟩).rows = h
    ∧ (blurredGradients cv ⟨rawGrad, load_img cv f w h, w, h, f⟩).cols = w
    ∧ labels.getD 0 "" = "Glioma" :=
  ⟨rfl, rfl, rfl, rfl, rfl⟩

/-- Claim C1 (counterexample): a 512 × 512 upload classified by the model
expecting 299 × 299 input yields a 299 × 299 overlay, not a 512 × 512 one:
`generate_saliency_map` resizes the gradients and the heatmap to `img_size`
and blends against the image that `display_tab_content` already resized to
`img_size`, so the original resolution is never restored. -/
theorem C1_counterexample :
    fileScan.rows = 512 ∧ fileScan.cols = 512
    ∧ (superimposedUint8 cvId aC1).rows = 299
    ∧ (superimposedUint8 cvId aC1).cols = 299
    ∧ ¬ (superimposedUint8 cvId aC1).rows = fileScan.rows := by
  refine ⟨rfl, rfl, rfl, rfl, ?_⟩
  intro h
  have h2 : (299 : ℕ) = 512 := h
  omega

end SaliencyApp
